import Mathlib

/-!
Verification of the vacation-entitlement engine of `app.py`
(incidencias_minisistema).

The Python source is shallowly embedded: `datetime.date` values become the
`App.Date` structure (year/month/day as naturals, compared lexicographically
exactly as Python compares dates), Python float arithmetic with
`round(x, 2)` is modelled over `ℚ` with rounding to the nearest hundredth,
the SQLite employee table becomes a list of employee records, and the
vacation ledger (`get_vacations_taken`, a count of `VACACIONES` rows in a
period) becomes a function producing the count for a given employee name and
period.  Fallible parsing (`datetime.fromisoformat`, `strptime`) becomes
`Option`-returning parsers.
-/

namespace App

/-- A calendar date as in Python's `datetime.date` (year, month, day). -/
structure Date where
  year : Nat
  month : Nat
  day : Nat
deriving DecidableEq, Repr

/-- Python's `<` on `datetime.date`: lexicographic on (year, month, day). -/
def dateLtb (a b : Date) : Bool :=
  a.year < b.year ∨ (a.year = b.year ∧
    (a.month < b.month ∨ (a.month = b.month ∧ a.day < b.day)))

/-- Python's `<=` on `datetime.date`: lexicographic on (year, month, day). -/
def dateLeb (a b : Date) : Bool :=
  a.year < b.year ∨ (a.year = b.year ∧
    (a.month < b.month ∨ (a.month = b.month ∧ a.day ≤ b.day)))

/-- Python's `max(a, b)` on dates: returns `b` when `a < b`, else `a`. -/
def dateMax (a b : Date) : Date :=
  if dateLtb a b then b else a

/-- `months_between(d1, d2)` (app.py line 269):
`(d2.year - d1.year)*12 + (d2.month - d1.month) - (0 if d2.day >= d1.day else 1)`. -/
def months_between (d1 d2 : Date) : Int :=
  ((d2.year : Int) - d1.year) * 12 + ((d2.month : Int) - d1.month)
    - (if d1.day ≤ d2.day then 0 else 1)

/-- `current_year_period` start: `date(today.year, 1, 1)`. -/
def currentYearStart (today : Date) : Date := ⟨today.year, 1, 1⟩

/-- `current_year_period` end: `date(today.year, 12, 31)`. -/
def currentYearEnd (today : Date) : Date := ⟨today.year, 12, 31⟩

/-- `prev_year_period` start: `date(today.year - 1, 1, 1)`. -/
def prevYearStart (today : Date) : Date := ⟨today.year - 1, 1, 1⟩

/-- `prev_year_period` end: `date(today.year - 1, 12, 31)`. -/
def prevYearEnd (today : Date) : Date := ⟨today.year - 1, 12, 31⟩

/-- The floor of a rational: its numerator divided (Euclidean, hence
floor, the denominator being positive) by its denominator — the same
formula Mathlib proves equal to `Int.floor` (`Rat.floor_def`). -/
def ratFloor (q : ℚ) : ℤ := q.num / q.den

/-- Round a rational to the nearest integer, ties to even — the rounding
of Python's `round`. -/
def roundHalfEven (q : ℚ) : ℤ :=
  let f := ratFloor q
  let r := q - f
  if r < 1 / 2 then f
  else if 1 / 2 < r then f + 1
  else if f % 2 = 0 then f else f + 1

/-- Python's `round(x, 2)` modelled over `ℚ`: round `x * 100` to the
nearest integer (ties to even) and divide by 100.  (No value in this
development sits on a tie, so the tie-breaking convention is immaterial
to every theorem below.) -/
def round2 (q : ℚ) : ℚ := (roundHalfEven (q * 100) : ℚ) / 100

/-- Months worked in the current year (app.py lines 301-302):
`m = max(0, months_between(max(hd, cy_start), today))`. -/
def monthsWorkedCY (today hd : Date) : Int :=
  max 0 (months_between (dateMax hd (currentYearStart today)) today)

/-- Current-year entitlement (app.py line 303):
`round((dpy/12.0)*min(m,12), 2)`. -/
def entitlementCY (today hd : Date) (dpy : Nat) : ℚ :=
  round2 ((dpy : ℚ) / 12 * min (monthsWorkedCY today hd) 12)

/-- Prior-year entitlement (app.py lines 307-311): `0.0` unless
`hd <= py_end`; otherwise `round((dpy/12.0)*min(m_py,12), 2)` with
`m_py = max(0, months_between(max(hd, py_start), py_end))`. -/
def entitlementPY (today hd : Date) (dpy : Nat) : ℚ :=
  if dateLeb hd (prevYearEnd today) then
    round2 ((dpy : ℚ) / 12 *
      min (max 0 (months_between (dateMax hd (prevYearStart today)) (prevYearEnd today))) 12)
  else 0

/-- `date.toordinal()` for the proleptic Gregorian calendar (year ≥ 1):
days before year `y` plus days before month `m` plus `d`. -/
def daysBeforeYear (y : Nat) : Nat :=
  365 * (y - 1) + (y - 1) / 4 + (y - 1) / 400 - (y - 1) / 100

/-- Whether `y` is a Gregorian leap year. -/
def isLeap (y : Nat) : Bool :=
  y % 4 = 0 ∧ (y % 100 ≠ 0 ∨ y % 400 = 0)

/-- Cumulative days before month `m` (1-12) in year `y`. -/
def daysBeforeMonth (y m : Nat) : Nat :=
  (match m with
   | 1 => 0 | 2 => 31 | 3 => 59 | 4 => 90 | 5 => 120 | 6 => 151
   | 7 => 181 | 8 => 212 | 9 => 243 | 10 => 273 | 11 => 304 | _ => 334)
  + (if 3 ≤ m ∧ isLeap y then 1 else 0)

/-- `date.toordinal()`: day number in the proleptic Gregorian calendar. -/
def toOrdinal (d : Date) : Nat :=
  daysBeforeYear d.year + daysBeforeMonth d.year d.month + d.day

/-- `days_to_expiry` (app.py lines 315-316): the `.days` of
`(py_end + timedelta(days=365)) - today`, i.e. the signed day distance from
`today` to the expiry date `py_end + 365` days. -/
def daysToExpiry (today : Date) : Int :=
  (toOrdinal (prevYearEnd today) : Int) + 365 - toOrdinal today

/-- Number of days in month `m` of year `y` (as validated by
`datetime.date`). -/
def daysInMonth (y m : Nat) : Nat :=
  match m with
  | 2 => if isLeap y then 29 else 28
  | 4 | 6 | 9 | 11 => 30
  | _ => 31

/-- A structurally valid `datetime.date` value (Python enforces
`1 <= year <= 9999`, `1 <= month <= 12`, `1 <= day <= days_in_month`). -/
def ValidDate (d : Date) : Prop :=
  1 ≤ d.year ∧ d.year ≤ 9999 ∧ 1 ≤ d.month ∧ d.month ≤ 12 ∧
    1 ≤ d.day ∧ d.day ≤ daysInMonth d.year d.month

instance (d : Date) : Decidable (ValidDate d) := by
  unfold ValidDate; infer_instance

/-
String processing is modelled over the character list `String.data`, with
structurally recursive helpers (the corresponding Python `str` methods are
byte-level loops; their observable character-level behaviour is what
matters here).
-/

/-- Split a character list at every occurrence of the separator `c`
(Python's `s.split(sep)` for a one-character separator: empty pieces are
kept). -/
def splitOnCharAux (c : Char) : List Char → List Char → List (List Char)
  | [], cur => [cur.reverse]
  | x :: xs, cur =>
    if x = c then cur.reverse :: splitOnCharAux c xs []
    else splitOnCharAux c xs (x :: cur)

/-- Split a character list on a one-character separator. -/
def splitOnChar (c : Char) (l : List Char) : List (List Char) :=
  splitOnCharAux c l []

/-- Python's `str.strip()`: drop leading and trailing whitespace. -/
def pyStrip (l : List Char) : List Char :=
  ((l.dropWhile Char.isWhitespace).reverse.dropWhile Char.isWhitespace).reverse

/-- The numeric value of a list of decimal digits (Python's `int` on a
digit string, leading zeros allowed). -/
def digitsToNat (l : List Char) : Nat :=
  l.foldl (fun n c => 10 * n + (c.toNat - '0'.toNat)) 0

/-- A run of exactly `k` decimal digits, as matched by
`datetime.fromisoformat` for each `YYYY-MM-DD` component. -/
def digitsLen (l : List Char) (k : Nat) : Bool :=
  l.length = k ∧ l.all Char.isDigit

/-- `datetime.fromisoformat(s).date()` restricted to date strings:
accepts exactly `YYYY-MM-DD` (digits modelled as ASCII) naming a valid
proleptic Gregorian date — the format the app itself writes via
`date.isoformat()`.  Returns `none` when the parse raises, mirroring the
`try/except`. -/
def parseIsoDate (s : String) : Option Date :=
  match splitOnChar '-' s.data with
  | [ys, ms, ds] =>
    if digitsLen ys 4 ∧ digitsLen ms 2 ∧ digitsLen ds 2 then
      if ValidDate ⟨digitsToNat ys, digitsToNat ms, digitsToNat ds⟩ then
        some ⟨digitsToNat ys, digitsToNat ms, digitsToNat ds⟩
      else none
    else none
  | _ => none

/-- The decimal digits of `n`. -/
def natChars (n : Nat) : List Char := Nat.toDigits 10 n

/-- The decimal digits of `n`, left-padded with zeros to width 2. -/
def pad2 (n : Nat) : List Char :=
  if n < 10 then '0' :: natChars n else natChars n

/-- The decimal digits of `n`, left-padded with zeros to width 4. -/
def pad4 (n : Nat) : List Char :=
  if n < 10 then '0' :: '0' :: '0' :: natChars n
  else if n < 100 then '0' :: '0' :: natChars n
  else if n < 1000 then '0' :: natChars n
  else natChars n

/-- `date.isoformat()`: `YYYY-MM-DD`, zero-padded. -/
def toIso (d : Date) : String :=
  String.mk (pad4 d.year ++ '-' :: (pad2 d.month ++ '-' :: pad2 d.day))

/-- An employee row as read from the `employees` table
(`SELECT name, plant, hire_date, days_per_year`); `hire` is the stored
ISO-format text, still unparsed. -/
structure Employee where
  name : String
  plant : String
  hire : String
  daysPerYear : Nat
deriving DecidableEq, Repr

/-- The vacation ledger: `get_vacations_taken(conn, name, start, end)`
counts `VACACIONES` incidence rows for `name` with date in
`[start, end]`; the database is abstracted as this counting function. -/
def Ledger : Type := String → Date → Date → Nat

/-- One row of the report built by `vacation_status_for_all`
(app.py lines 319-329). -/
structure VacRow where
  empleado : String
  planta : String
  ingreso : Date
  diasAnio : Nat
  mesesTrabajados : Int
  derechoCY : ℚ
  tomadoCY : ℚ
  saldoCY : ℚ
  saldoPY : ℚ
  diasParaVencer : Int
  alerta : Bool
deriving DecidableEq, Repr

/-- The loop body of `vacation_status_for_all` (app.py lines 301-329) for
one employee whose hire date parsed to `hd`. -/
def mkRow (today : Date) (taken : Ledger) (name plant : String)
    (hd : Date) (dpy : Nat) : VacRow :=
  let m := monthsWorkedCY today hd
  let entCY := entitlementCY today hd dpy
  let takenCY : ℚ := taken name (currentYearStart today) (currentYearEnd today)
  let remCY := round2 (entCY - takenCY)
  let entPY := entitlementPY today hd dpy
  let takenPY : ℚ := taken name (prevYearStart today) (prevYearEnd today)
  let remPY := round2 (entPY - takenPY)
  let dte := daysToExpiry today
  let willExpire := 0 < remPY ∧ dte ≤ 60
  { empleado := name, planta := plant, ingreso := hd, diasAnio := dpy,
    mesesTrabajados := m, derechoCY := entCY, tomadoCY := takenCY,
    saldoCY := remCY, saldoPY := remPY, diasParaVencer := dte,
    alerta := willExpire }

/-- `vacation_status_for_all` (app.py lines 289-330): iterate the employee
rows in order; an employee whose `hire_date` fails to parse is skipped
(`except: continue`), every other employee contributes one report row. -/
def vacation_status_for_all (today : Date) (taken : Ledger)
    (emps : List Employee) : List VacRow :=
  match emps with
  | [] => []
  | e :: rest =>
    match parseIsoDate e.hire with
    | none => vacation_status_for_all today taken rest
    | some hd =>
      mkRow today taken e.name e.plant hd e.daysPerYear
        :: vacation_status_for_all today taken rest

/-- The tab-2 monthly-anniversary view (app.py lines 676-677): keep exactly
the report rows whose hire-date month equals the selected month. -/
def monthlyView (mes : Nat) (rows : List VacRow) : List VacRow :=
  rows.filter (fun r => r.ingreso.month = mes)

/-- Python's `str.upper()` on the characters this app inspects: ASCII
uppercasing plus the accented lowercase vowels that
`_normalize_rest_day` later strips. -/
def pyUpperChar (c : Char) : Char :=
  match c with
  | 'á' => 'Á' | 'é' => 'É' | 'í' => 'Í' | 'ó' => 'Ó' | 'ú' => 'Ú'
  | _ => c.toUpper

/-- Python's `str.upper()` lifted character-wise. -/
def pyUpper (l : List Char) : List Char := l.map pyUpperChar

/-- The day-name table `mapa` of `_normalize_rest_day` (app.py lines
207-211); unknown keys map to the empty string (`mapa.get(s, "")`). -/
def restDayMap (s : String) : String :=
  match s with
  | "LUNES" => "LUN" | "MARTES" => "MAR" | "MIERCOLES" => "MIE"
  | "MIÉRCOLES" => "MIE" | "JUEVES" => "JUE" | "VIERNES" => "VIE"
  | "SABADO" => "SAB" | "SÁBADO" => "SAB" | "DOMINGO" => "DOM"
  | "LUN" => "LUN" | "MAR" => "MAR" | "MIE" => "MIE" | "JUE" => "JUE"
  | "VIE" => "VIE" | "SAB" => "SAB" | "DOM" => "DOM"
  | _ => ""

/-- The accent stripping of `_normalize_rest_day`: the five successive
one-character `str.replace` calls, character-wise. -/
def stripAccent (c : Char) : Char :=
  match c with
  | 'Á' => 'A' | 'É' => 'E' | 'Í' => 'I' | 'Ó' => 'O' | 'Ú' => 'U'
  | _ => c

/-- `_normalize_rest_day` (app.py lines 201-212): empty input stays
empty; else strip, uppercase, replace accented vowels, look up in the
table. -/
def normalizeRestDay (raw : String) : String :=
  if raw.data = [] then ""
  else restDayMap (String.mk ((pyUpper (pyStrip raw.data)).map stripAccent))

/-- A decimal run of 1 or 2 digits whose value lies in `[lo, hi]`: the
set matched by `strptime`'s `%d` (1-31) and `%m` (1-12) directives. -/
def digits12 (l : List Char) (lo hi : Nat) : Bool :=
  (l.length = 1 ∨ l.length = 2) ∧ l.all Char.isDigit ∧
    lo ≤ digitsToNat l ∧ digitsToNat l ≤ hi

/-- `datetime.strptime(s, "%d/%m/%Y")` reduced to its date: day and month
are 1-2 digit numbers in range, the year exactly 4 digits (digits modelled
as ASCII), and the triple must be a valid date or the constructor raises. -/
def parseDdmmyyyyDate (l : List Char) : Option Date :=
  match splitOnChar '/' l with
  | [ds, ms, ys] =>
    if digits12 ds 1 31 ∧ digits12 ms 1 12 ∧ digitsLen ys 4 then
      if ValidDate ⟨digitsToNat ys, digitsToNat ms, digitsToNat ds⟩ then
        some ⟨digitsToNat ys, digitsToNat ms, digitsToNat ds⟩
      else none
    else none
  | _ => none

/-- `_parse_ddmmyyyy` (app.py lines 214-221): empty string for the empty
input, else strip, turn `-` into `/`, parse as `DD/MM/YYYY` and re-emit
as ISO (`dt.date().isoformat()`); any parse failure yields `""`. -/
def parse_ddmmyyyy (s : String) : String :=
  if s.data = [] then ""
  else
    match parseDdmmyyyyDate ((pyStrip s.data).map
        (fun c => if c = '-' then '/' else c)) with
    | some d => toIso d
    | none => ""

/-- The `DIAS CORRESPONDIENTES` coercion (app.py lines 247-251): delete
every non-digit character, convert to an integer (`int` of the empty
string raises, caught to the default 12), and replace a non-positive
result with 12. -/
def parseDpy (s : String) : Nat :=
  let ds := s.data.filter Char.isDigit
  if ds = [] then 12
  else if digitsToNat ds = 0 then 12 else digitsToNat ds

/-- One raw CSV record with the eight required columns, already extracted
as strings (`str(r[cols[...]])`). -/
structure CsvRow where
  empresa : String
  zona : String
  nombre : String
  paterno : String
  materno : String
  ingreso : String
  diaDescanso : String
  diasCorr : String
deriving DecidableEq, Repr

/-- An output record of `transform_employees_csv` (app.py lines 256-263). -/
structure EmpOut where
  name : String
  plant : String
  hire_date : String
  days_per_year : Nat
  rest_day : Option String
  company : String
deriving DecidableEq, Repr

/-- Python's `s.replace("  ", " ")`: scan left to right, replacing each
non-overlapping double space by a single one. -/
def collapseDoubleSpace : List Char → List Char
  | ' ' :: ' ' :: rest => ' ' :: collapseDoubleSpace rest
  | x :: rest => x :: collapseDoubleSpace rest
  | [] => []

/-- Python's `x or None` on a string: `none` for the empty string. -/
def orNone (s : String) : Option String :=
  if s = "" then none else some s

/-- The loop body of `transform_employees_csv` (app.py lines 237-263):
build the normalized fields, and skip the record (`continue`) when the
full name, the plant, or the parsed hire date is empty. -/
def transformStep (r : CsvRow) : Option EmpOut :=
  let company := pyUpper (pyStrip r.empresa.data)
  let plant := pyUpper (pyStrip r.zona.data)
  let fullName := pyStrip (collapseDoubleSpace (pyUpper
    (pyStrip r.nombre.data ++ ' ' :: (pyStrip r.paterno.data ++ ' ' ::
      pyStrip r.materno.data))))
  let hireIso := parse_ddmmyyyy r.ingreso
  let restDay := normalizeRestDay r.diaDescanso
  let dpy := parseDpy r.diasCorr
  if fullName = [] ∨ plant = [] ∨ hireIso = "" then none
  else some { name := String.mk fullName, plant := String.mk plant,
              hire_date := hireIso, days_per_year := dpy,
              rest_day := orNone restDay,
              company := String.mk company }

/-- `transform_employees_csv` (app.py lines 223-264) over the row list:
emit the transform of every record the loop does not skip. -/
def transform_employees_csv (rows : List CsvRow) : List EmpOut :=
  rows.filterMap transformStep

/-! ### Facts about the rounding model -/

theorem ratFloor_eq (q : ℚ) : ratFloor q = ⌊q⌋ := Rat.floor_def.symm

theorem roundHalfEven_le (q : ℚ) : (roundHalfEven q : ℚ) ≤ q + 1 / 2 := by
  simp only [roundHalfEven, ratFloor_eq]
  have h4 := Int.floor_le q
  have h5 := Int.lt_floor_add_one q
  split_ifs <;> push_cast <;> linarith

theorem le_roundHalfEven (q : ℚ) : q - 1 / 2 ≤ (roundHalfEven q : ℚ) := by
  simp only [roundHalfEven, ratFloor_eq]
  have h4 := Int.floor_le q
  have h5 := Int.lt_floor_add_one q
  split_ifs <;> push_cast <;> linarith

theorem roundHalfEven_mono {a b : ℚ} (h : a ≤ b) :
    roundHalfEven a ≤ roundHalfEven b := by
  simp only [roundHalfEven, ratFloor_eq]
  rcases lt_or_eq_of_le (Int.floor_le_floor h) with hlt | heq
  · have hA : ∀ x : ℚ, (if x - ⌊x⌋ < 1/2 then ⌊x⌋
        else if 1/2 < x - ⌊x⌋ then ⌊x⌋ + 1
        else if ⌊x⌋ % 2 = 0 then ⌊x⌋ else ⌊x⌋ + 1) ≤ ⌊x⌋ + 1 := by
      intro x; split_ifs <;> omega
    have hB : ∀ x : ℚ, ⌊x⌋ ≤ (if x - ⌊x⌋ < 1/2 then ⌊x⌋
        else if 1/2 < x - ⌊x⌋ then ⌊x⌋ + 1
        else if ⌊x⌋ % 2 = 0 then ⌊x⌋ else ⌊x⌋ + 1) := by
      intro x; split_ifs <;> omega
    calc (if a - ⌊a⌋ < 1/2 then ⌊a⌋
        else if 1/2 < a - ⌊a⌋ then ⌊a⌋ + 1
        else if ⌊a⌋ % 2 = 0 then ⌊a⌋ else ⌊a⌋ + 1) ≤ ⌊a⌋ + 1 := hA a
      _ ≤ ⌊b⌋ := hlt
      _ ≤ _ := hB b
  · rw [← heq]
    have hra : a - ⌊a⌋ ≤ b - ⌊a⌋ := by linarith
    split_ifs <;> first | omega | linarith

theorem roundHalfEven_intCast (n : ℤ) : roundHalfEven (n : ℚ) = n := by
  simp [roundHalfEven, ratFloor_eq, Int.floor_intCast]

theorem round2_mono {a b : ℚ} (h : a ≤ b) : round2 a ≤ round2 b := by
  unfold round2
  have h1 : roundHalfEven (a * 100) ≤ roundHalfEven (b * 100) :=
    roundHalfEven_mono (by linarith)
  have h2 : ((roundHalfEven (a * 100) : ℤ) : ℚ) ≤ roundHalfEven (b * 100) :=
    by exact_mod_cast h1
  linarith

theorem round2_le (q : ℚ) : round2 q ≤ q + 1 / 200 := by
  unfold round2
  have h1 := roundHalfEven_le (q * 100)
  linarith

/-- `round2` is the identity on exact hundredths. -/
theorem round2_hundredth (k : ℤ) : round2 ((k : ℚ) / 100) = (k : ℚ) / 100 := by
  unfold round2
  have h1 : (k : ℚ) / 100 * 100 = (k : ℚ) := by field_simp
  rw [h1, roundHalfEven_intCast]

/-- Subtracting a natural count from an exact hundredth commutes with
`round2`. -/
theorem round2_hundredth_sub_natCast (j : ℤ) (n : ℕ) :
    round2 ((j : ℚ) / 100 - n) = (j : ℚ) / 100 - n := by
  have h : (j : ℚ) / 100 - n = ((j - 100 * n : ℤ) : ℚ) / 100 := by
    push_cast; ring
  rw [h, round2_hundredth]

/-- Every `round2` value is an exact hundredth. -/
theorem round2_eq_hundredth (q : ℚ) :
    round2 q = ((roundHalfEven (q * 100) : ℤ) : ℚ) / 100 := rfl

/-! ### The anchored-floor reading of `months_between` -/

/-- The month index `12 * year + month` of a date. -/
def monthIndex (d : Date) : ℤ := 12 * d.year + d.month

/-- Lexicographic comparison of (month-index, day-of-month) anchors. -/
def anchorLe (m1 : ℤ) (d1 : ℕ) (m2 : ℤ) (d2 : ℕ) : Prop :=
  m1 < m2 ∨ (m1 = m2 ∧ d1 ≤ d2)

/-- Strict lexicographic comparison of (month-index, day) anchors. -/
def anchorLt (m1 : ℤ) (d1 : ℕ) (m2 : ℤ) (d2 : ℕ) : Prop :=
  m1 < m2 ∨ (m1 = m2 ∧ d1 < d2)

/-! ### Claim theorems -/

/-- Claim C2: `months_between d1 d2` is the number of whole months from
`d1` to `d2` anchored on day-of-month — it is the unique `n` with
`d1 + n months ≤ d2 < d1 + (n+1) months` in the anchored lexicographic
order, so the final partial month counts exactly when `d2`'s day-of-month
is at least `d1`'s; on the spec's examples it yields 1 and 2, and it is
negative on an inverted pair. -/
theorem months_between_whole_months :
    (∀ d1 d2 : Date,
      anchorLe (monthIndex d1 + months_between d1 d2) d1.day
        (monthIndex d2) d2.day ∧
      anchorLt (monthIndex d2) d2.day
        (monthIndex d1 + months_between d1 d2 + 1) d1.day) ∧
    months_between ⟨2024, 1, 15⟩ ⟨2024, 3, 10⟩ = 1 ∧
    months_between ⟨2024, 1, 15⟩ ⟨2024, 3, 20⟩ = 2 ∧
    (dateLtb ⟨2024, 1, 15⟩ ⟨2024, 3, 20⟩ = true ∧
      months_between ⟨2024, 3, 20⟩ ⟨2024, 1, 15⟩ < 0) := by
  refine ⟨?_, by decide, by decide, by decide, by decide⟩
  intro d1 d2
  simp only [months_between, monthIndex, anchorLe, anchorLt]
  split_ifs with h <;> constructor <;> omega

/-- The prior-year accrual window always spans 11 whole months of the
prior year: `months_between(Jan 1, Dec 31)` is 11, not 12. -/
theorem mb_prior_year (today : Date) :
    months_between (prevYearStart today) (prevYearEnd today) = 11 := by
  simp [months_between, prevYearStart, prevYearEnd]

/-- Claim C1, counterexample: an employee hired on 2023-05-10 (on or
before the prior-year start 2024-01-01 of reference date 2025-06-15),
with allotment 12, gets prior-year entitlement 11.00 — not 12.00 as the
claim states. -/
theorem entitlementPY_full_year_ne_12 :
    dateLeb ⟨2023, 5, 10⟩ (prevYearStart ⟨2025, 6, 15⟩) = true ∧
    entitlementPY ⟨2025, 6, 15⟩ ⟨2023, 5, 10⟩ 12 = 11 ∧
    entitlementPY ⟨2025, 6, 15⟩ ⟨2023, 5, 10⟩ 12 ≠ 12 := by
  have h : entitlementPY ⟨2025, 6, 15⟩ ⟨2023, 5, 10⟩ 12 = 11 := by
    with_unfolding_all rfl
  refine ⟨by decide, h, ?_⟩
  rw [h]; norm_num

/-- Claim C1 (amended): for an employee hired on or before the prior-year
start, with annual allotment `dpy`, the prior-year entitlement is
`round(dpy * 11 / 12, 2)` — 11.00 for allotment 12, for every reference
date — because months worked against `priorYearEnd` over the full prior
year is 11 (Dec 31 is one day short of a twelfth anchored month), and the
cap at 12 never binds. -/
theorem entitlementPY_full_prior_year (today hd : Date) (dpy : ℕ)
    (h : dateLeb hd (prevYearStart today) = true) :
    entitlementPY today hd dpy = round2 ((dpy : ℚ) * 11 / 12) ∧
    (dpy = 12 → entitlementPY today hd dpy = 11) := by
  have hcomp : hd.year < today.year - 1 ∨ (hd.year = today.year - 1 ∧
      (hd.month < 1 ∨ (hd.month = 1 ∧ hd.day ≤ 1))) := by
    have h2 := h
    simp only [dateLeb, prevYearStart, decide_eq_true_eq] at h2
    exact h2
  have hle : dateLeb hd (prevYearEnd today) = true := by
    simp only [dateLeb, prevYearEnd, decide_eq_true_eq]
    omega
  have hm : months_between (dateMax hd (prevYearStart today))
      (prevYearEnd today) = 11 := by
    unfold dateMax
    split_ifs with hlt
    · exact mb_prior_year today
    · simp only [dateLtb, prevYearStart, decide_eq_true_eq] at hlt
      simp only [months_between, prevYearStart, prevYearEnd]
      split_ifs <;> omega
  have hmain : entitlementPY today hd dpy = round2 ((dpy : ℚ) * 11 / 12) := by
    unfold entitlementPY
    rw [if_pos hle, hm]
    norm_num
    congr 1
    ring
  refine ⟨hmain, fun hdpy => ?_⟩
  rw [hmain, hdpy]
  have h12 : ((12 : ℕ) : ℚ) * 11 / 12 = ((1100 : ℤ) : ℚ) / 100 := by norm_num
  rw [h12, round2_hundredth]
  norm_num

/-- Claim C1 (amended), witness at the counterexample's input. -/
theorem entitlementPY_full_prior_year_witness :
    dateLeb ⟨2023, 5, 10⟩ (prevYearStart ⟨2025, 6, 15⟩) = true ∧
    entitlementPY ⟨2025, 6, 15⟩ ⟨2023, 5, 10⟩ 12 = 11 :=
  ⟨by decide,
    (entitlementPY_full_prior_year ⟨2025, 6, 15⟩ ⟨2023, 5, 10⟩ 12
      (by decide)).2 rfl⟩

/-- The spec's current-year entitlement formula (§4.2 steps 1-2): months
worked are `months_between(max(hireDate, currentYearStart), referenceDate)`
clamped to `[0, 12]`, and the entitlement is
`round(allotment / 12 * monthsWorked, 2)`. -/
def specEntitlementCY (allotment : ℕ) (hireDate referenceDate : Date) : ℚ :=
  let accrualStart := dateMax hireDate (currentYearStart referenceDate)
  let monthsWorked :=
    min 12 (max 0 (months_between accrualStart referenceDate))
  round2 ((allotment : ℚ) / 12 * monthsWorked)

/-- Claim C3: every report row's current-year entitlement is exactly the
spec's formula `round(allotment / 12 * monthsWorked, 2)` with months
clamped to `[0, 12]`; an employee hired exactly on the current-year start
with allotment 12, evaluated six months later, gets 6.00. -/
theorem entitlementCY_matches_spec :
    (∀ (today hd : Date) (dpy : ℕ) (taken : Ledger) (name plant : String),
      (mkRow today taken name plant hd dpy).derechoCY
        = specEntitlementCY dpy hd today) ∧
    entitlementCY ⟨2025, 7, 1⟩ ⟨2025, 1, 1⟩ 12 = 6 := by
  constructor
  · intro today hd dpy taken name plant
    simp [mkRow, entitlementCY, specEntitlementCY, monthsWorkedCY, min_comm]
  · with_unfolding_all rfl

/-- `round2` is the identity on a `round2` value minus a natural count. -/
theorem round2_round2_sub_natCast (q : ℚ) (n : ℕ) :
    round2 (round2 q - (n : ℚ)) = round2 q - n := by
  rw [round2_eq_hundredth q, round2_hundredth_sub_natCast]

/-- `round2` is the identity on a prior-year entitlement minus a natural
count. -/
theorem round2_entPY_sub (today hd : Date) (dpy n : ℕ) :
    round2 (entitlementPY today hd dpy - (n : ℚ))
      = entitlementPY today hd dpy - n := by
  unfold entitlementPY
  split_ifs
  · exact round2_round2_sub_natCast _ _
  · have h0 : (0 : ℚ) - n = ((0 - 100 * n : ℤ) : ℚ) / 100 := by
      push_cast; ring
    rw [h0, round2_hundredth]

/-- Claim C5: both remaining balances are exactly entitlement minus taken
— the final `round` is the identity there, and nothing clamps at zero, so
over-consumption yields a negative balance, e.g.
`round2 (5 - 7) = -2`. -/
theorem remaining_is_unclamped_difference :
    (∀ (today hd : Date) (dpy : ℕ) (taken : Ledger) (name plant : String),
      (mkRow today taken name plant hd dpy).saldoCY
          = (mkRow today taken name plant hd dpy).derechoCY
            - (mkRow today taken name plant hd dpy).tomadoCY ∧
      (mkRow today taken name plant hd dpy).saldoPY
          = entitlementPY today hd dpy
            - (taken name (prevYearStart today) (prevYearEnd today) : ℚ)) ∧
    round2 ((5 : ℚ) - 7) = -2 := by
  constructor
  · intro today hd dpy taken name plant
    constructor
    · show round2 (entitlementCY today hd dpy
          - (taken name (currentYearStart today) (currentYearEnd today) : ℚ))
        = entitlementCY today hd dpy
          - (taken name (currentYearStart today) (currentYearEnd today) : ℚ)
      unfold entitlementCY
      exact round2_round2_sub_natCast _ _
    · exact round2_entPY_sub today hd dpy _
  · with_unfolding_all rfl

/-- Claim C4: the expiry alert is raised exactly when the prior-year
remaining balance is positive and the day distance to the expiry date
(prior-year end plus 365 days) is at most 60 — in particular it stays off
at a zero balance however negative the distance, and it fires for a
positive balance even when the expiry date is already past. -/
theorem expiry_alert_iff (today hd : Date) (dpy : ℕ) (taken : Ledger)
    (name plant : String) :
    ((mkRow today taken name plant hd dpy).alerta = true ↔
      0 < (mkRow today taken name plant hd dpy).saldoPY ∧
        (mkRow today taken name plant hd dpy).diasParaVencer ≤ 60) ∧
    (mkRow today taken name plant hd dpy).diasParaVencer
      = (toOrdinal (prevYearEnd today) : ℤ) + 365 - toOrdinal today ∧
    ((mkRow today taken name plant hd dpy).saldoPY = 0 →
      (mkRow today taken name plant hd dpy).alerta = false) ∧
    (0 < (mkRow today taken name plant hd dpy).saldoPY →
      (mkRow today taken name plant hd dpy).diasParaVencer < 0 →
      (mkRow today taken name plant hd dpy).alerta = true) := by
  have hiff : (mkRow today taken name plant hd dpy).alerta = true ↔
      0 < (mkRow today taken name plant hd dpy).saldoPY ∧
        (mkRow today taken name plant hd dpy).diasParaVencer ≤ 60 := by
    simp [mkRow, decide_eq_true_eq]
  refine ⟨hiff, rfl, ?_, ?_⟩
  · intro h0
    cases halt : (mkRow today taken name plant hd dpy).alerta
    · rfl
    · exfalso
      have hc := hiff.mp halt
      rw [h0] at hc
      exact lt_irrefl 0 hc.1
  · intro hpos hneg
    exact hiff.mpr ⟨hpos, by omega⟩

/-- Claim C4, witness: on 2024-12-31 (a leap year's last day) the expiry
date of the 2023 carry-over is 2024-12-30, one day past, and the alert
still fires for an employee with a positive prior-year balance. -/
theorem expiry_alert_iff_witness :
    0 < (mkRow ⟨2024, 12, 31⟩ (fun _ _ _ => 0) "E" "P" ⟨2020, 1, 1⟩ 12).saldoPY ∧
    (mkRow ⟨2024, 12, 31⟩ (fun _ _ _ => 0) "E" "P" ⟨2020, 1, 1⟩ 12).diasParaVencer < 0 ∧
    (mkRow ⟨2024, 12, 31⟩ (fun _ _ _ => 0) "E" "P" ⟨2020, 1, 1⟩ 12).alerta = true := by
  have h := expiry_alert_iff ⟨2024, 12, 31⟩ ⟨2020, 1, 1⟩ 12 (fun _ _ _ => 0) "E" "P"
  have hpos : 0 < (mkRow ⟨2024, 12, 31⟩ (fun _ _ _ => 0) "E" "P" ⟨2020, 1, 1⟩ 12).saldoPY := by
    with_unfolding_all decide
  have hneg : (mkRow ⟨2024, 12, 31⟩ (fun _ _ _ => 0) "E" "P" ⟨2020, 1, 1⟩ 12).diasParaVencer < 0 := by
    with_unfolding_all decide
  exact ⟨hpos, hneg, h.2.2.2 hpos hneg⟩

/-- Claim C6: the annual report is exactly the employee list filtered
through hire-date parsing — an employee whose stored hire date does not
parse contributes no row (and raises nothing), every other employee
contributes exactly one row; concretely, a malformed middle record is
dropped while its neighbours keep their rows. -/
theorem vacation_report_skips_unparseable :
    (∀ (today : Date) (taken : Ledger) (emps : List Employee),
      vacation_status_for_all today taken emps
        = emps.filterMap (fun e => (parseIsoDate e.hire).map
            (fun hd => mkRow today taken e.name e.plant hd e.daysPerYear)) ∧
      (vacation_status_for_all today taken emps).length
        = (emps.filter (fun e => (parseIsoDate e.hire).isSome)).length) ∧
    vacation_status_for_all ⟨2025, 6, 15⟩ (fun _ _ _ => 0)
        [⟨"ANA", "P1", "2024-02-10", 12⟩, ⟨"BETO", "P2", "10/02/2024", 12⟩,
          ⟨"CARLA", "P3", "2023-07-01", 10⟩]
      = [mkRow ⟨2025, 6, 15⟩ (fun _ _ _ => 0) "ANA" "P1" ⟨2024, 2, 10⟩ 12,
          mkRow ⟨2025, 6, 15⟩ (fun _ _ _ => 0) "CARLA" "P3" ⟨2023, 7, 1⟩ 10] := by
  constructor
  · intro today taken emps
    have h1 : vacation_status_for_all today taken emps
        = emps.filterMap (fun e => (parseIsoDate e.hire).map
            (fun hd => mkRow today taken e.name e.plant hd e.daysPerYear)) := by
      induction emps with
      | nil => simp [vacation_status_for_all]
      | cons e rest ih =>
        cases h : parseIsoDate e.hire <;>
          simp [vacation_status_for_all, h, ih]
    refine ⟨h1, ?_⟩
    rw [h1]
    clear h1
    induction emps with
    | nil => simp
    | cons e rest ih =>
      cases h : parseIsoDate e.hire <;>
        simp [h, ih, List.filterMap_cons, List.filter_cons]
  · rfl

/-- A successful ISO parse yields a structurally valid date. -/
theorem parseIsoDate_valid {s : String} {d : Date}
    (h : parseIsoDate s = some d) : ValidDate d := by
  unfold parseIsoDate at h
  split at h
  · split_ifs at h with h1 h2
    cases h; exact h2
  · exact absurd h (by simp)

/-- Every report row's hire month lies in `1..12` (its hire date came
from a successful parse). -/
theorem report_month_bounds {today : Date} {taken : Ledger}
    {emps : List Employee} {r : VacRow}
    (h : r ∈ vacation_status_for_all today taken emps) :
    1 ≤ r.ingreso.month ∧ r.ingreso.month ≤ 12 := by
  induction emps with
  | nil => simp [vacation_status_for_all] at h
  | cons e rest ih =>
    rw [vacation_status_for_all] at h
    cases hp : parseIsoDate e.hire with
    | none => rw [hp] at h; exact ih h
    | some hd =>
      rw [hp] at h
      rcases List.mem_cons.mp h with hr | hr
      · have hv := parseIsoDate_valid hp
        rw [hr]
        exact ⟨hv.2.2.1, hv.2.2.2.1⟩
      · exact ih hr

/-- Counting over a flatten is the sum of the counts. -/
theorem count_flatten_eq (L : List (List VacRow)) (a : VacRow) :
    L.flatten.count a = (L.map (List.count a)).sum := by
  induction L with
  | nil => simp
  | cons l ls ih => simp [List.count_append, ih]

/-- Summing `if k = i + 1 then c else 0` over `i < n` keeps exactly one
term when `1 ≤ k ≤ n`. -/
theorem sum_ite_range (n k c : ℕ) :
    ((List.range n).map (fun i => if k = i + 1 then c else 0)).sum
      = if 1 ≤ k ∧ k ≤ n then c else 0 := by
  induction n with
  | zero =>
    simp only [List.range_zero, List.map_nil, List.sum_nil]
    split_ifs with h
    · omega
    · rfl
  | succ n ih =>
    rw [List.range_succ, List.map_append, List.sum_append, ih]
    simp only [List.map_cons, List.map_nil, List.sum_cons, List.sum_nil]
    split_ifs <;> omega

/-- The count of a row in a monthly view. -/
theorem count_monthlyView (mes : ℕ) (rows : List VacRow) (a : VacRow) :
    (monthlyView mes rows).count a
      = if a.ingreso.month = mes then rows.count a else 0 := by
  unfold monthlyView
  split_ifs with h
  · exact List.count_filter (by simp [h])
  · refine List.count_eq_zero.mpr ?_
    intro hmem
    exact h (by simpa using (List.mem_filter.mp hmem).2)

/-- Concatenating the twelve monthly views of a report with all hire months in
`1..12` is a permutation of the report. -/
theorem monthly_union_perm (rows : List VacRow)
    (hb : ∀ r ∈ rows, 1 ≤ r.ingreso.month ∧ r.ingreso.month ≤ 12) :
    (((List.range 12).map (fun i => monthlyView (i + 1) rows)).flatten).Perm
      rows := by
  rw [List.perm_iff_count]
  intro a
  rw [count_flatten_eq, List.map_map]
  have hcomp : (List.count a ∘ fun i => monthlyView (i + 1) rows)
      = fun i => if a.ingreso.month = i + 1 then rows.count a else 0 := by
    funext i
    simp [count_monthlyView]
  rw [hcomp, sum_ite_range]
  split_ifs with h
  · rfl
  · exact (List.count_eq_zero.mpr fun hmem => h (hb a hmem)).symm

/-- Claim C7: the monthly-anniversary view is exactly the subsequence of
the annual report whose hire month is the selected one (a pure filter,
same rows), and the twelve monthly views together contain every report
row exactly once (a permutation of the report, malformed records having
already been skipped when the report was built). -/
theorem monthly_view_is_filter :
    (∀ (mes : ℕ) (rows : List VacRow),
      (monthlyView mes rows).Sublist rows ∧
      ∀ r : VacRow, r ∈ monthlyView mes rows ↔
        r ∈ rows ∧ r.ingreso.month = mes) ∧
    (∀ (today : Date) (taken : Ledger) (emps : List Employee),
      (((List.range 12).map (fun i =>
          monthlyView (i + 1) (vacation_status_for_all today taken emps))).flatten).Perm
        (vacation_status_for_all today taken emps)) := by
  constructor
  · intro mes rows
    exact ⟨List.filter_sublist _, fun r => by simp [monthlyView]⟩
  · intro today taken emps
    exact monthly_union_perm _ (fun r hr => report_month_bounds hr)

/-- `months_between` is monotone in its second argument across two dates
of the same year. -/
theorem months_between_mono_right (s : Date) {r1 r2 : Date}
    (hy : r1.year = r2.year) (h12 : dateLeb r1 r2 = true) :
    months_between s r1 ≤ months_between s r2 := by
  simp only [dateLeb, decide_eq_true_eq] at h12
  simp only [months_between]
  split_ifs <;> omega

/-- Claim C8: with hire date and allotment fixed, the current-year
entitlement computed at an earlier reference date of the same calendar
year is at most the one computed at a later reference date. -/
theorem entitlement_monotone_within_year (hd : Date) (dpy : ℕ)
    (taken : Ledger) (name plant : String) (r1 r2 : Date)
    (hy : r1.year = r2.year) (h12 : dateLeb r1 r2 = true) :
    (mkRow r1 taken name plant hd dpy).derechoCY
      ≤ (mkRow r2 taken name plant hd dpy).derechoCY := by
  show entitlementCY r1 hd dpy ≤ entitlementCY r2 hd dpy
  unfold entitlementCY monthsWorkedCY
  have hcy : currentYearStart r1 = currentYearStart r2 := by
    simp [currentYearStart, hy]
  rw [hcy]
  have hmb := months_between_mono_right (dateMax hd (currentYearStart r2)) hy h12
  apply round2_mono
  have hmin : (min (max 0 (months_between (dateMax hd (currentYearStart r2)) r1)) 12 : ℤ)
      ≤ min (max 0 (months_between (dateMax hd (currentYearStart r2)) r2)) 12 := by
    omega
  have hcast : ((min (max 0 (months_between (dateMax hd (currentYearStart r2)) r1)) 12 : ℤ) : ℚ)
      ≤ ((min (max 0 (months_between (dateMax hd (currentYearStart r2)) r2)) 12 : ℤ) : ℚ) := by
    exact_mod_cast hmin
  have hnn : (0 : ℚ) ≤ (dpy : ℚ) / 12 := by positivity
  exact mul_le_mul_of_nonneg_left hcast hnn

/-- Claim C8, witness: March 10 versus September 10 of 2025. -/
theorem entitlement_monotone_within_year_witness :
    dateLeb ⟨2025, 3, 10⟩ ⟨2025, 9, 10⟩ = true ∧
    (mkRow ⟨2025, 3, 10⟩ (fun _ _ _ => 0) "E" "P" ⟨2024, 5, 10⟩ 12).derechoCY
      ≤ (mkRow ⟨2025, 9, 10⟩ (fun _ _ _ => 0) "E" "P" ⟨2024, 5, 10⟩ 12).derechoCY :=
  ⟨by decide,
    entitlement_monotone_within_year ⟨2024, 5, 10⟩ 12 (fun _ _ _ => 0) "E" "P"
      ⟨2025, 3, 10⟩ ⟨2025, 9, 10⟩ rfl (by decide)⟩

/-- Claim C9: during the current year the months-worked figure never
exceeds 11 (the accrual start is at least Jan 1 of the reference year and
`months_between` to any same-year date is at most 11), so the current-year
entitlement is capped at `round(allotment * 11 / 12, 2)` and stays
strictly below the full annual allotment. -/
theorem current_year_months_capped (today hd : Date) (dpy : ℕ)
    (taken : Ledger) (name plant : String)
    (hvt : ValidDate today) (hvh : ValidDate hd) (hdpy : 1 ≤ dpy) :
    (mkRow today taken name plant hd dpy).mesesTrabajados ≤ 11 ∧
    (mkRow today taken name plant hd dpy).derechoCY
      ≤ round2 ((dpy : ℚ) * 11 / 12) ∧
    (mkRow today taken name plant hd dpy).derechoCY < dpy := by
  obtain ⟨hty1, hty2, htm1, htm2, htd1, htd2⟩ := hvt
  obtain ⟨hhy1, hhy2, hhm1, hhm2, hhd1, hhd2⟩ := hvh
  have hm11 : monthsWorkedCY today hd ≤ 11 := by
    unfold monthsWorkedCY dateMax
    split_ifs with hlt
    · simp only [months_between, currentYearStart]
      split_ifs
      all_goals omega
    · simp only [dateLtb, currentYearStart, decide_eq_true_eq] at hlt
      simp only [months_between]
      split_ifs
      all_goals omega
  have hm0 : 0 ≤ monthsWorkedCY today hd := le_max_left 0 _
  have hmin : min (monthsWorkedCY today hd) 12 = monthsWorkedCY today hd :=
    min_eq_left (by omega)
  have h2 : entitlementCY today hd dpy ≤ round2 ((dpy : ℚ) * 11 / 12) := by
    unfold entitlementCY
    rw [hmin]
    have hc : ((monthsWorkedCY today hd : ℤ) : ℚ) ≤ 11 := by
      exact_mod_cast hm11
    have hnn : (0 : ℚ) ≤ (dpy : ℚ) / 12 := by positivity
    have harg : (dpy : ℚ) / 12 * ((monthsWorkedCY today hd : ℤ) : ℚ)
        ≤ (dpy : ℚ) * 11 / 12 := by
      calc (dpy : ℚ) / 12 * ((monthsWorkedCY today hd : ℤ) : ℚ)
          ≤ (dpy : ℚ) / 12 * 11 := mul_le_mul_of_nonneg_left hc hnn
        _ = (dpy : ℚ) * 11 / 12 := by ring
    exact round2_mono harg
  have h3 : round2 ((dpy : ℚ) * 11 / 12) < dpy := by
    have hb := round2_le ((dpy : ℚ) * 11 / 12)
    have hd1 : (1 : ℚ) ≤ (dpy : ℚ) := by exact_mod_cast hdpy
    linarith
  exact ⟨hm11, h2, lt_of_le_of_lt h2 h3⟩

/-- Claim C9, witness: a mid-2025 reference date and a 2024 hire. -/
theorem current_year_months_capped_witness :
    ValidDate ⟨2025, 6, 15⟩ ∧ ValidDate ⟨2024, 5, 10⟩ ∧
    (mkRow ⟨2025, 6, 15⟩ (fun _ _ _ => 0) "E" "P" ⟨2024, 5, 10⟩ 12).mesesTrabajados ≤ 11 ∧
    (mkRow ⟨2025, 6, 15⟩ (fun _ _ _ => 0) "E" "P" ⟨2024, 5, 10⟩ 12).derechoCY
      < ((12 : ℕ) : ℚ) := by
  have h := current_year_months_capped ⟨2025, 6, 15⟩ ⟨2024, 5, 10⟩ 12
    (fun _ _ _ => 0) "E" "P" (by decide) (by decide) (by decide)
  exact ⟨by decide, by decide, h.1, h.2.2⟩

/-- A successful `DD/MM/YYYY` parse yields a structurally valid date. -/
theorem parseDdmmyyyyDate_valid {l : List Char} {d : Date}
    (h : parseDdmmyyyyDate l = some d) : ValidDate d := by
  unfold parseDdmmyyyyDate at h
  split at h
  · split_ifs at h with h1 h2
    cases h; exact h2
  · exact absurd h (by simp)

/-- The allotment coercion never yields less than one day. -/
theorem parseDpy_pos (s : String) : 1 ≤ parseDpy s := by
  simp only [parseDpy]
  split_ifs <;> omega

/-- Claim C10: every record emitted by the bulk-import transform has a
non-empty normalized name and plant, an allotment of at least one day
(non-positive or unparseable allotments fall back to 12), and a hire date
obtained by parsing the raw field as `DD/MM/YYYY` and re-emitting it in
ISO form; records failing the name/plant/hire-date checks produce no
output at all. -/
theorem transform_emits_only_valid_rows (rows : List CsvRow) (out : EmpOut)
    (hmem : out ∈ transform_employees_csv rows) :
    out.name ≠ "" ∧ out.plant ≠ "" ∧ 1 ≤ out.days_per_year ∧
    ∃ r ∈ rows, transformStep r = some out ∧
      ∃ d : Date, ValidDate d ∧
        parseDdmmyyyyDate ((pyStrip r.ingreso.data).map
          (fun c => if c = '-' then '/' else c)) = some d ∧
        out.hire_date = toIso d := by
  obtain ⟨r, hr, hstep⟩ := List.mem_filterMap.mp hmem
  have hstep' := hstep
  simp only [transformStep] at hstep'
  split_ifs at hstep' with hcond
  push_neg at hcond
  obtain ⟨hname, hplant, hhire⟩ := hcond
  cases hstep'
  refine ⟨?_, ?_, parseDpy_pos _, r, hr, hstep, ?_⟩
  · intro hc
    exact hname (by simpa using congrArg String.data hc)
  · intro hc
    exact hplant (by simpa using congrArg String.data hc)
  · rcases hp : parseDdmmyyyyDate ((pyStrip r.ingreso.data).map
        (fun c => if c = '-' then '/' else c)) with _ | d
    · exfalso
      apply hhire
      unfold parse_ddmmyyyy
      split_ifs with hemp
      · rfl
      · rw [hp]
    · refine ⟨d, parseDdmmyyyyDate_valid hp, rfl, ?_⟩
      show parse_ddmmyyyy r.ingreso = toIso d
      unfold parse_ddmmyyyy
      split_ifs with hemp
      · exact absurd (by unfold parse_ddmmyyyy; rw [if_pos hemp]) hhire
      · rw [hp]

/-- Claim C10, witness: one well-formed CSV record. -/
theorem transform_emits_only_valid_rows_witness :
    (⟨"JUAN PA GA", "NORTE", "2020-03-15", 12, some "LUN", "ACME"⟩ : EmpOut)
        ∈ transform_employees_csv
          [⟨"acme", "norte", "Juan", "Pa", "Ga", "15/03/2020", "lunes", "12"⟩] ∧
    (⟨"JUAN PA GA", "NORTE", "2020-03-15", 12, some "LUN", "ACME"⟩ : EmpOut).name ≠ "" ∧
    1 ≤ (⟨"JUAN PA GA", "NORTE", "2020-03-15", 12, some "LUN", "ACME"⟩ : EmpOut).days_per_year := by
  have h := transform_emits_only_valid_rows
    [⟨"acme", "norte", "Juan", "Pa", "Ga", "15/03/2020", "lunes", "12"⟩]
    ⟨"JUAN PA GA", "NORTE", "2020-03-15", 12, some "LUN", "ACME"⟩
    (by decide)
  exact ⟨by decide, h.1, h.2.2.1⟩

end App
